import Mathlib

/-!
Verification of the study-event recurrence / completion engine
(`src/modules/studyEvents`: `studyEvent.service.js`, `studyEvent.controller.js`,
`studyEvent.model.js`, `studyEventLog.model.js`).

Modelling conventions:
* JavaScript `Date` values are modelled as civil day numbers (`Int`, days since
  1970-01-01).  The engine normalizes every date it stores or compares to local
  midnight and iterates in whole-day steps, so day granularity is faithful.
  `new Date(year, month0, day)` with arbitrary (possibly out-of-range)
  `month0`/`day` is modelled by `jsMakeDate`, which performs the same
  field normalization JavaScript does, via the standard civil-from-fields
  conversion (`daysFromCivil`).
* `Date.prototype.getDay` (0 = Sunday .. 6 = Saturday) is `getDayOfWeek`:
  day 0 (1970-01-01) was a Thursday, hence the offset 4.
* MongoDB collections are modelled as lists in natural order; `find` with a
  filter is `List.filter`, `findOne` is `List.find?`, `.sort({date: 1})` and
  `Array.prototype.sort` (stable per ECMAScript) are modelled by the stable
  insertion sort `sortByKey`.  ObjectIds are opaque `Nat`s.
* Mongoose documents always carry `recurrence.daysOfWeek` (schema default
  `[]`), so `Recurrence.daysOfWeek` is a plain list; `recurrence` itself is
  `Option Recurrence` to model the `event.recurrence || {}` guard.
* The spread results `{...event, instanceDate, date, completed}` are the
  `Instance` and `Occurrence` structures.  `Occurrence.instanceDate` is
  `none` exactly when the JavaScript object has no (or a null) `instanceDate`
  property; the code never distinguishes a missing from a null `instanceDate`.
-/

/-- Days since 1970-01-01 of the civil date `(y, m, d)` (proleptic Gregorian),
for `1 ≤ m ≤ 12`; arbitrary `d` is normalized arithmetically exactly as
JavaScript `Date` normalizes an out-of-range day-of-month. -/
def daysFromCivil (y m d : Int) : Int :=
  let yAdj := y - (if m ≤ 2 then 1 else 0)
  let era := yAdj.fdiv 400
  let yoe := yAdj - era * 400
  let mp := (m + 9).emod 12
  let doy := (153 * mp + 2).fdiv 5 + (d - 1)
  let doe := yoe * 365 + yoe.fdiv 4 - yoe.fdiv 100 + doy
  era * 146097 + doe - 719468

/-- `new Date(y, month0, d)` at local midnight, as a day number: JavaScript
normalizes an arbitrary zero-based month index by carrying into the year. -/
def jsMakeDate (y month0 d : Int) : Int :=
  daysFromCivil (y + month0.fdiv 12) (month0.emod 12 + 1) d

/-- `date.getDay()`: weekday with 0 = Sunday .. 6 = Saturday
(day 0 = 1970-01-01 was a Thursday). -/
def getDayOfWeek (date : Int) : Int :=
  (date + 4).emod 7

/-- The recurrence subdocument of a StudyEvent (`studyEvent.model.js`):
`type` is a string (schema enum lists daily/weekly/custom but the engine
treats it as an open string), `daysOfWeek` defaults to `[]`. -/
structure Recurrence where
  type : String
  daysOfWeek : List Int
deriving Repr, DecidableEq

/-- A StudyEvent document (`studyEvent.model.js`). -/
structure StudyEvent where
  _id : Nat
  userId : Nat
  title : String
  date : Option Int
  isRecurring : Bool
  recurrence : Option Recurrence
  examId : Option Nat
  subjectId : Option Nat
  topicId : Option Nat
deriving Repr, DecidableEq

/-- A StudyEventLog document (`studyEventLog.model.js`): one completion row. -/
structure LogRecord where
  eventId : Nat
  date : Int
  completed : Bool
deriving Repr, DecidableEq

/-- The record store: both collections, in natural order. -/
structure DB where
  events : List StudyEvent
  logs : List LogRecord
deriving Repr, DecidableEq

/-- `matchesRecurrence(event, targetDate)` from `studyEvent.service.js`. -/
def matchesRecurrence (event : StudyEvent) (targetDate : Int) : Bool :=
  if !event.isRecurring then false
  else
    let targetDay := getDayOfWeek targetDate
    match event.recurrence with
    | none => false
    | some r =>
      if r.type = "daily" then true
      else if r.type = "weekly" then r.daysOfWeek.contains targetDay
      else if r.type = "custom" then r.daysOfWeek.contains targetDay
      else false

/-- Stable insertion of `x` into a list ordered by `key` ascending (goes in
front of later elements with an equal key). -/
def insertByKey {α : Type} (key : α → Int) (x : α) : List α → List α
  | [] => [x]
  | y :: ys => if key x ≤ key y then x :: y :: ys else y :: insertByKey key x ys

/-- Stable sort ascending by `key`: the model of ECMAScript
`Array.prototype.sort` with comparator `key a - key b` and of Mongo
`.sort({date: 1})` (both stable). -/
def sortByKey {α : Type} (key : α → Int) : List α → List α
  | [] => []
  | x :: xs => insertByKey key x (sortByKey key xs)

/-- An element of `eventInstances`: `{...event, instanceDate}`. -/
structure Instance where
  ev : StudyEvent
  instanceDate : Option Int
deriving Repr, DecidableEq

/-- Sort key used on `eventInstances`:
`a.instanceDate ? a.instanceDate.getTime() : 0`. -/
def instKey (a : Instance) : Int :=
  match a.instanceDate with
  | some d => d
  | none => 0

/-- Sort key of the Mongo query `.sort({date: 1})` on one-time events. -/
def eventDateKey (e : StudyEvent) : Int :=
  match e.date with
  | some d => d
  | none => 0

/-- An element of the materializer's response:
`{...instance, date: instanceDate, completed}` (so `ev.date` holds the
overwritten `date` field).  The today view emits objects without an
`instanceDate` property (`instanceDate = none`). -/
structure Occurrence where
  ev : StudyEvent
  instanceDate : Option Int
  completed : Bool
deriving Repr, DecidableEq

/-- Does log `l` belong to the completion key `(eid, d)`? -/
def logMatches (eid : Nat) (d : Int) (l : LogRecord) : Bool :=
  l.eventId == eid && l.date == d

/-- `logsByEventAndDate[eventId_dateStr]` lookup: the map is built by a loop
that overwrites on duplicate keys, so it holds the last matching log. -/
def lookupLog (logs : List LogRecord) (eid : Nat) (d : Int) : Option Bool :=
  ((logs.filter (logMatches eid d)).getLast?).map (fun l => l.completed)

/-- Day-by-day walk `for (currentDate = start; currentDate <= end; +1 day)`. -/
def daysInRange (s e : Int) : List Int :=
  (List.range (e + 1 - s).toNat).map (fun i : Nat => s + (i : Int))

/-- One-time-event month query filter:
`{userId, isRecurring: false, date: {$gte: start, $lte: end}}` (documents
without a `date` do not match a range filter). -/
def oneTimeMonthPred (userId : Nat) (startDate endDate : Int)
    (e : StudyEvent) : Bool :=
  e.userId == userId && !e.isRecurring &&
    (match e.date with
     | some d => startDate ≤ d && d ≤ endDate
     | none => false)

/-- Recurring-event query filter `{userId, isRecurring: true}`. -/
def recurringPred (userId : Nat) (e : StudyEvent) : Bool :=
  e.userId == userId && e.isRecurring

/-- Step 2 of the materializer: one candidate instance per matching one-time
event, `instanceDate = event.date` (query sorted by `date` ascending). -/
def monthOneTimeInstances (db : DB) (userId : Nat) (startDate endDate : Int) :
    List Instance :=
  (sortByKey eventDateKey
    (db.events.filter (oneTimeMonthPred userId startDate endDate))).map
    (fun e => ⟨e, e.date⟩)

/-- Step 3 of the materializer: walk every day of the range for every
recurring event and keep the days on which the evaluator fires. -/
def monthRecurringInstances (db : DB) (userId : Nat)
    (startDate endDate : Int) : List Instance :=
  (db.events.filter (recurringPred userId)).flatMap (fun e =>
    (daysInRange startDate endDate).filterMap (fun d =>
      if matchesRecurrence e d then some ⟨e, some d⟩ else none))

/-- The fully collected and sorted `eventInstances` array. -/
def monthInstances (db : DB) (userId : Nat) (startDate endDate : Int) :
    List Instance :=
  sortByKey instKey
    (monthOneTimeInstances db userId startDate endDate ++
      monthRecurringInstances db userId startDate endDate)

/-- Step 4: the single batched log query
`{eventId: {$in: eventIds}, date: {$gte: start, $lte: end}}`. -/
def monthLogs (db : DB) (userId : Nat) (startDate endDate : Int) :
    List LogRecord :=
  db.logs.filter (fun l =>
    ((monthInstances db userId startDate endDate).map
      (fun i => i.ev._id)).contains l.eventId &&
    startDate ≤ l.date && l.date ≤ endDate)

/-- Steps 5–6: `{...instance, date: instanceDate, completed}` with
`completed = logsByEventAndDate[key] || false`. -/
def annotateInstance (logs : List LogRecord) (inst : Instance) : Occurrence :=
  { ev := { inst.ev with date := inst.instanceDate },
    instanceDate := inst.instanceDate,
    completed :=
      match inst.instanceDate with
      | some d => (lookupLog logs inst.ev._id d).getD false
      | none => false }

/-- The body of `getStudyEventsForMonth` after the month string has been
parsed into a year and (1-based, possibly out-of-range) month number. -/
def materializeMonth (db : DB) (userId : Nat) (year month : Int) :
    List Occurrence :=
  let startDate := jsMakeDate year (month - 1) 1
  let endDate := jsMakeDate year month 0
  (monthInstances db userId startDate endDate).map
    (annotateInstance (monthLogs db userId startDate endDate))

/-- `Number(s)` on an all-digit string. -/
def natOfDigits (cs : List Char) : Nat :=
  cs.foldl (fun acc c => acc * 10 + (c.toNat - 48)) 0

/-- JavaScript `s.split('-')` over the character list. -/
def splitOnDash : List Char → List (List Char)
  | [] => [[]]
  | c :: rest =>
    let r := splitOnDash rest
    if c = '-' then [] :: r
    else (c :: r.headD []) :: r.tail

/-- `monthStr.split('-').map(Number)`; only ever reached on strings matching
`^\d{4}-\d{2}$`, and total elsewhere. -/
def parseMonth (s : String) : Int × Int :=
  match splitOnDash s.data with
  | [ys, ms] => ((natOfDigits ys : Int), (natOfDigits ms : Int))
  | _ => (0, 0)

/-- `getStudyEventsForMonth(userId, monthStr)` from `studyEvent.service.js`. -/
def getStudyEventsForMonth (db : DB) (userId : Nat) (monthStr : String) :
    List Occurrence :=
  let p := parseMonth monthStr
  materializeMonth db userId p.1 p.2

/-- The one-time-event query of the today view:
`{userId, isRecurring: false, date: {$gte: startOfToday, $lte: endOfToday}}`
(at day granularity, `date = today`). -/
def todayOneTimePred (userId : Nat) (today : Int) (e : StudyEvent) : Bool :=
  e.userId == userId && !e.isRecurring &&
    (match e.date with
     | some d => d == today
     | none => false)

/-- The `todayEvents` array: one-time events of today, then each recurring
event that fires today with its `date` overwritten to today. -/
def todayEvents (db : DB) (userId : Nat) (today : Int) : List StudyEvent :=
  db.events.filter (todayOneTimePred userId today) ++
    (db.events.filter (recurringPred userId)).filterMap (fun e =>
      if matchesRecurrence e today then some { e with date := some today }
      else none)

/-- The today view's log query, restricted to today's day bucket. -/
def todayLogs (db : DB) (userId : Nat) (today : Int) : List LogRecord :=
  db.logs.filter (fun l =>
    ((todayEvents db userId today).map (fun e => e._id)).contains l.eventId &&
      l.date == today)

/-- `completedMap[eventId] || false` of the today view: keyed by event id
only (the log query already restricts the date to today), last write wins. -/
def todayCompleted (logs : List LogRecord) (eid : Nat) : Bool :=
  (((logs.filter (fun l => l.eventId == eid)).getLast?).map
    (fun l => l.completed)).getD false

/-- `getTodayStudyEvents(userId)` from `studyEvent.service.js`; the wall-clock
"today" (already truncated to midnight) is an explicit parameter.  The
returned objects carry no `instanceDate` property. -/
def getTodayStudyEvents (db : DB) (userId : Nat) (today : Int) :
    List Occurrence :=
  (todayEvents db userId today).map (fun e =>
    { ev := e,
      instanceDate := none,
      completed := todayCompleted (todayLogs db userId today) e._id })

/-- Replace the first record matching `p` (the model of `findOne` followed by
mutating that one document and `save()`). -/
def updateFirst (p : LogRecord → Bool) (f : LogRecord → LogRecord) :
    List LogRecord → List LogRecord
  | [] => []
  | l :: ls => if p l then f l :: ls else l :: updateFirst p f ls

/-- The NOT_FOUND message from `config/constants.js`. -/
def NOT_FOUND : String := "Resource not found"

/-- `completeStudyEvent(eventId, userId, date)` from `studyEvent.service.js`.
`dateArg = none` models a missing `date` body field (defaults to today,
passed in as `now`).  Returns the resulting record (or the thrown error)
together with the store after the call; the existing-log branch searches by
the day bucket `[targetDate, targetDate + 1 day)`, which at day granularity
is equality on the day number. -/
def completeStudyEvent (db : DB) (eventId userId : Nat) (dateArg : Option Int)
    (now : Int) : Except String LogRecord × DB :=
  match db.events.find? (fun e => e._id == eventId && e.userId == userId) with
  | none => (Except.error NOT_FOUND, db)
  | some _ =>
    let targetDate := dateArg.getD now
    let isKey := logMatches eventId targetDate
    match db.logs.find? isKey with
    | some existing =>
      let updated : LogRecord := { existing with completed := true }
      (Except.ok updated,
        { db with logs := updateFirst isKey (fun l => { l with completed := true }) db.logs })
    | none =>
      let newLog : LogRecord :=
        { eventId := eventId, date := targetDate, completed := true }
      (Except.ok newLog, { db with logs := db.logs ++ [newLog] })

/-- Is `c` one of the whitespace characters `String.prototype.trim` strips? -/
def isWhitespaceChar (c : Char) : Bool :=
  c == ' ' || c == '\t' || c == '\n' || c == '\r'

/-- JavaScript `s.trim()`: strip leading and trailing whitespace. -/
def jsTrim (s : String) : String :=
  ⟨((s.data.dropWhile isWhitespaceChar).reverse.dropWhile
    isWhitespaceChar).reverse⟩

/-- Request body of the create endpoint. -/
structure CreateInput where
  title : String
  date : Option Int
  isRecurring : Bool
  recurrence : Option Recurrence
  examId : Option Nat
  subjectId : Option Nat
  topicId : Option Nat
deriving Repr, DecidableEq

/-- `createStudyEvent(userId, data)` from `studyEvent.service.js`: stores the
event with `recurrence: data.recurrence || { type: 'daily', daysOfWeek: [] }`.
`newId` is the ObjectId Mongo assigns. -/
def serviceCreateStudyEvent (db : DB) (userId newId : Nat)
    (data : CreateInput) : StudyEvent × DB :=
  let ev : StudyEvent :=
    { _id := newId,
      userId := userId,
      title := jsTrim data.title,
      date := data.date,
      isRecurring := data.isRecurring,
      recurrence := some (data.recurrence.getD ⟨"daily", []⟩),
      examId := data.examId,
      subjectId := data.subjectId,
      topicId := data.topicId }
  (ev, { db with events := db.events ++ [ev] })

/-- The controller-level validation of `createStudyEvent`
(`studyEvent.controller.js`): missing/blank title, then — only when both
`isRecurring` and a `recurrence` object are present — missing/empty
`daysOfWeek` for weekly/custom.  Returns the offending field, or `none`
when the request is accepted. -/
def createValidationError (data : CreateInput) : Option String :=
  if jsTrim data.title = "" then some "title"
  else if data.isRecurring then
    match data.recurrence with
    | some r =>
      if (r.type = "weekly" || r.type = "custom") && r.daysOfWeek.isEmpty then
        some "recurrence.daysOfWeek"
      else none
    | none => none
  else none

/-- The create endpoint: validate, then create. -/
def controllerCreateStudyEvent (db : DB) (userId newId : Nat)
    (data : CreateInput) : Except String (StudyEvent × DB) :=
  match createValidationError data with
  | some field => Except.error field
  | none => Except.ok (serviceCreateStudyEvent db userId newId data)

/-- Is `c` an ASCII digit (the regex class `\d`). -/
def isDigitChar (c : Char) : Bool :=
  48 ≤ c.toNat && c.toNat ≤ 57

/-- The controller's regex `^\d{4}-\d{2}$` on the month query parameter. -/
def isValidMonthToken (s : String) : Bool :=
  match s.data with
  | [a, b, c, d, e, f, g] =>
    isDigitChar a && isDigitChar b && isDigitChar c && isDigitChar d &&
      e == '-' && isDigitChar f && isDigitChar g
  | _ => false

/-- Result of the list-for-range endpoint. -/
inductive GetEventsResult where
  | validationError (field : String)
  | success (occurrences : List Occurrence)
deriving Repr, DecidableEq

/-- `getStudyEvents` from `studyEvent.controller.js`: reject a missing or
malformed `month` query parameter before the service is invoked. -/
def controllerGetStudyEvents (db : DB) (userId : Nat)
    (month : Option String) : GetEventsResult :=
  match month with
  | none => GetEventsResult.validationError "month"
  | some m =>
    if isValidMonthToken m then
      GetEventsResult.success (getStudyEventsForMonth db userId m)
    else
      GetEventsResult.validationError "month"

/-- The four operations the engine exposes (§6). -/
inductive EngineOp where
  | create (uid newId : Nat) (data : CreateInput)
  | listMonth (uid : Nat) (monthStr : String)
  | listToday (uid : Nat) (today : Int)
  | complete (eid uid : Nat) (dateArg : Option Int) (now : Int)

/-- The record store after an engine operation.  The two listing operations
(`getStudyEventsForMonth`, `getTodayStudyEvents`) issue only `find` queries,
so they leave the store unchanged; create writes an event document; complete
writes at most one log record. -/
def EngineOp.run : EngineOp → DB → DB
  | EngineOp.create uid newId data, db =>
    match controllerCreateStudyEvent db uid newId data with
    | Except.error _ => db
    | Except.ok (_, db') => db'
  | EngineOp.listMonth _ _, db => db
  | EngineOp.listToday _ _, db => db
  | EngineOp.complete eid uid dateArg now, db =>
    (completeStudyEvent db eid uid dateArg now).2

/-- The spec's notion of a well-formed calendar-month token, stated from
the spec's words for comparison: the `YYYY-MM` shape with a month between
01 and 12 (a real calendar month). -/
def isCalendarMonthToken (s : String) : Bool :=
  isValidMonthToken s && 1 ≤ (parseMonth s).2 && (parseMonth s).2 ≤ 12

/-- A store with one daily recurring event owned by user 2, used to show a
non-calendar token reaching the materializer and producing occurrences. -/
def dbDaily : DB :=
  ⟨[⟨1, 2, "t", none, true, some ⟨"daily", []⟩, none, none, none⟩], []⟩

/-! ### Store invariants -/

/-- At most one CompletionRecord per `(eventId, date)` pair (§3). -/
def UniqueLogs (db : DB) : Prop :=
  db.logs.Pairwise (fun a b => ¬(a.eventId = b.eventId ∧ a.date = b.date))

/-- Distinct documents have distinct ObjectIds (a MongoDB `_id` guarantee). -/
def UniqueEventIds (db : DB) : Prop :=
  db.events.Pairwise (fun a b => a._id ≠ b._id)

/-! ### Lemmas about the stable sort -/

theorem insertByKey_perm {α : Type} (key : α → Int) (x : α) (l : List α) :
    List.Perm (insertByKey key x l) (x :: l) := by
  induction l with
  | nil => simp [insertByKey]
  | cons y ys ih =>
    simp only [insertByKey]
    split
    · exact List.Perm.refl _
    · exact (List.Perm.cons y ih).trans (List.Perm.swap x y ys)

theorem sortByKey_perm {α : Type} (key : α → Int) (l : List α) :
    List.Perm (sortByKey key l) l := by
  induction l with
  | nil => simp [sortByKey]
  | cons x xs ih =>
    exact (insertByKey_perm key x (sortByKey key xs)).trans (List.Perm.cons x ih)

theorem pairwise_insertByKey {α : Type} (key : α → Int) (x : α) (l : List α)
    (h : l.Pairwise (fun a b => key a ≤ key b)) :
    (insertByKey key x l).Pairwise (fun a b => key a ≤ key b) := by
  induction l with
  | nil => simp [insertByKey]
  | cons y ys ih =>
    simp only [insertByKey]
    split
    · rename_i hxy
      refine List.Pairwise.cons ?_ h
      intro z hz
      rcases List.mem_cons.mp hz with hz1 | hz1
      · exact hz1 ▸ hxy
      · exact le_trans hxy ((List.pairwise_cons.mp h).1 z hz1)
    · rename_i hxy
      rcases List.pairwise_cons.mp h with ⟨hy, hys⟩
      refine List.Pairwise.cons ?_ (ih hys)
      intro z hz
      have hz' := (insertByKey_perm key x ys).mem_iff.mp hz
      rcases List.mem_cons.mp hz' with hz1 | hz1
      · exact hz1 ▸ le_of_not_le hxy
      · exact hy z hz1

theorem pairwise_sortByKey {α : Type} (key : α → Int) (l : List α) :
    (sortByKey key l).Pairwise (fun a b => key a ≤ key b) := by
  induction l with
  | nil => simp [sortByKey]
  | cons x xs ih => exact pairwise_insertByKey key x _ ih

/-- Filtering for a single key value commutes with stable insertion:
an element that satisfies `p` is never moved past another `p`-element,
because all `p`-elements share the key `t`. -/
theorem filter_insertByKey {α : Type} (key : α → Int) (p : α → Bool)
    (t : Int) (hp : ∀ a, p a = true → key a = t) (x : α) (l : List α) :
    (insertByKey key x l).filter p = (x :: l).filter p := by
  induction l with
  | nil => simp [insertByKey]
  | cons y ys ih =>
    simp only [insertByKey]
    split
    · rfl
    · rename_i hxy
      cases hpx : p x with
      | true =>
        have hpy : p y = false := by
          cases hpy : p y with
          | false => rfl
          | true =>
            exact absurd (le_of_eq ((hp x hpx).trans (hp y hpy).symm)) hxy
        simp [List.filter_cons, hpx, hpy, ih]
      | false =>
        simp [List.filter_cons, hpx, ih]

/-- Filtering for a single key value commutes with the stable sort. -/
theorem filter_sortByKey {α : Type} (key : α → Int) (p : α → Bool)
    (t : Int) (hp : ∀ a, p a = true → key a = t) (l : List α) :
    (sortByKey key l).filter p = l.filter p := by
  induction l with
  | nil => rfl
  | cons x xs ih =>
    rw [sortByKey, filter_insertByKey key p t hp]
    simp only [List.filter_cons, ih]

/-! ### C1: the recurrence evaluator -/

/-- C1: for every event definition (with its stored recurrence subdocument)
and every candidate date, `matchesRecurrence` returns false when the
definition is not recurring; returns true for a recurring `daily` definition
regardless of the date; for `weekly` and `custom` returns true iff the
candidate date's weekday (0 = Sunday .. 6 = Saturday) is in `daysOfWeek`
(identical logic for both); and returns false for any other recurrence
type. -/
theorem matchesRecurrence_spec (e : StudyEvent) (d : Int) (r : Recurrence)
    (hr : e.recurrence = some r) :
    (e.isRecurring = false → matchesRecurrence e d = false) ∧
    (e.isRecurring = true → r.type = "daily" → matchesRecurrence e d = true) ∧
    (e.isRecurring = true → (r.type = "weekly" ∨ r.type = "custom") →
      (matchesRecurrence e d = true ↔ getDayOfWeek d ∈ r.daysOfWeek)) ∧
    (e.isRecurring = true → r.type ≠ "daily" → r.type ≠ "weekly" →
      r.type ≠ "custom" → matchesRecurrence e d = false) := by
  refine ⟨?_, ?_, ?_, ?_⟩
  · intro h
    simp [matchesRecurrence, h]
  · intro h ht
    simp [matchesRecurrence, h, hr, ht]
  · intro h ht
    rcases ht with ht | ht <;>
      simp [matchesRecurrence, h, hr, ht, List.elem_iff]
  · intro h h1 h2 h3
    simp [matchesRecurrence, h, hr, h1, h2, h3]

/-- Witness for `matchesRecurrence_spec`: a weekly Mon/Wed/Fri definition,
evaluated on 2024-03-15 (a Friday, weekday 5). -/
theorem matchesRecurrence_spec_witness :
    (StudyEvent.recurrence
        ⟨1, 2, "t", none, true, some ⟨"weekly", [1, 3, 5]⟩, none, none, none⟩ =
      some ⟨"weekly", [1, 3, 5]⟩) ∧
    (matchesRecurrence
        ⟨1, 2, "t", none, true, some ⟨"weekly", [1, 3, 5]⟩, none, none, none⟩
        (daysFromCivil 2024 3 15) = true ↔
      getDayOfWeek (daysFromCivil 2024 3 15) ∈ ([1, 3, 5] : List Int)) :=
  ⟨rfl,
    (matchesRecurrence_spec
        ⟨1, 2, "t", none, true, some ⟨"weekly", [1, 3, 5]⟩, none, none, none⟩
        (daysFromCivil 2024 3 15) ⟨"weekly", [1, 3, 5]⟩ rfl).2.2.1 rfl
      (Or.inl rfl)⟩

/-! ### C8: the month materializer's output is sorted by occurrence date -/

/-- C8: the list returned by the month materializer is sorted ascending by
the occurrence `date` field (adjacent elements are in non-decreasing date
order; no secondary order is claimed for equal dates). -/
theorem getStudyEventsForMonth_sorted (db : DB) (userId : Nat)
    (monthStr : String) :
    (getStudyEventsForMonth db userId monthStr).Chain'
      (fun a b => eventDateKey a.ev ≤ eventDateKey b.ev) := by
  apply List.Pairwise.chain'
  simp only [getStudyEventsForMonth, materializeMonth]
  rw [List.pairwise_map]
  exact (pairwise_sortByKey instKey _).imp (fun {a b} h => by
    simpa [eventDateKey, instKey] using h)

/-! ### Lemmas about `updateFirst` and the completion key -/

theorem mem_updateFirst {p : LogRecord → Bool} {f : LogRecord → LogRecord}
    {l : List LogRecord} {b : LogRecord} (hb : b ∈ updateFirst p f l) :
    b ∈ l ∨ ∃ a ∈ l, b = f a := by
  induction l with
  | nil => simp [updateFirst] at hb
  | cons x xs ih =>
    simp only [updateFirst] at hb
    split at hb
    · rcases List.mem_cons.mp hb with h | h
      · exact Or.inr ⟨x, List.mem_cons_self _ _, h⟩
      · exact Or.inl (List.mem_cons_of_mem _ h)
    · rcases List.mem_cons.mp hb with h | h
      · exact Or.inl (h ▸ List.mem_cons_self _ _)
      · rcases ih h with h1 | ⟨a, ha, hfa⟩
        · exact Or.inl (List.mem_cons_of_mem _ h1)
        · exact Or.inr ⟨a, List.mem_cons_of_mem _ ha, hfa⟩

theorem updateFirst_pairwise (p : LogRecord → Bool) (f : LogRecord → LogRecord)
    (hf : ∀ l, (f l).eventId = l.eventId ∧ (f l).date = l.date)
    (l : List LogRecord)
    (h : l.Pairwise (fun a b => ¬(a.eventId = b.eventId ∧ a.date = b.date))) :
    (updateFirst p f l).Pairwise
      (fun a b => ¬(a.eventId = b.eventId ∧ a.date = b.date)) := by
  induction l with
  | nil => simp [updateFirst]
  | cons x xs ih =>
    rcases List.pairwise_cons.mp h with ⟨hx, hxs⟩
    simp only [updateFirst]
    split
    · refine List.Pairwise.cons ?_ hxs
      intro b hb
      rw [(hf x).1, (hf x).2]
      exact hx b hb
    · refine List.Pairwise.cons ?_ (ih hxs)
      intro b hb
      rcases mem_updateFirst hb with h1 | ⟨a, ha, hfa⟩
      · exact hx b h1
      · rw [hfa, (hf a).1, (hf a).2]
        exact hx a ha

theorem updateFirst_countP (q p : LogRecord → Bool) (f : LogRecord → LogRecord)
    (hqf : ∀ l, q (f l) = q l) (l : List LogRecord) :
    (updateFirst p f l).countP q = l.countP q := by
  induction l with
  | nil => rfl
  | cons x xs ih =>
    simp only [updateFirst]
    split
    · simp [List.countP_cons, hqf]
    · simp [List.countP_cons, ih]

theorem updateFirst_length (p : LogRecord → Bool) (f : LogRecord → LogRecord)
    (l : List LogRecord) : (updateFirst p f l).length = l.length := by
  induction l with
  | nil => rfl
  | cons x xs ih =>
    simp only [updateFirst]
    split
    · simp
    · simp [ih]

theorem updateFirst_mem_of_find? {p : LogRecord → Bool}
    {f : LogRecord → LogRecord} {l : List LogRecord} {a : LogRecord}
    (h : l.find? p = some a) : f a ∈ updateFirst p f l := by
  induction l with
  | nil => simp [List.find?] at h
  | cons x xs ih =>
    simp only [updateFirst]
    cases hp : p x with
    | true =>
      rw [List.find?_cons_of_pos _ hp, Option.some.injEq] at h
      simp only [hp]
      simp [h]
    | false =>
      rw [List.find?_cons_of_neg _ (by simp [hp])] at h
      simp [hp, ih h]

theorem countP_logMatches_le_one (eid : Nat) (d : Int) (l : List LogRecord)
    (h : l.Pairwise (fun a b => ¬(a.eventId = b.eventId ∧ a.date = b.date))) :
    l.countP (logMatches eid d) ≤ 1 := by
  induction l with
  | nil => simp
  | cons x xs ih =>
    rcases List.pairwise_cons.mp h with ⟨hx, hxs⟩
    rw [List.countP_cons]
    cases hq : logMatches eid d x with
    | false => simpa [hq] using ih hxs
    | true =>
      have hzero : xs.countP (logMatches eid d) = 0 := by
        rw [List.countP_eq_zero]
        intro b hb hqb
        simp only [logMatches, Bool.and_eq_true, beq_iff_eq] at hq hqb
        exact hx b hb ⟨hq.1.trans hqb.1.symm, hq.2.trans hqb.2.symm⟩
      simp [hq, hzero]

theorem find?_eq_of_countP_one {α : Type} {p : α → Bool} {l : List α} {a : α}
    (hc : l.countP p = 1) (ha : a ∈ l) (hpa : p a = true) :
    l.find? p = some a := by
  induction l with
  | nil => simp at ha
  | cons x xs ih =>
    rw [List.countP_cons] at hc
    cases hp : p x with
    | true =>
      rw [List.find?_cons_of_pos _ hp]
      rcases List.mem_cons.mp ha with h | h
      · rw [h]
      · exfalso
        rw [hp, if_pos rfl] at hc
        have hzero : xs.countP p = 0 := by omega
        exact (List.countP_eq_zero.mp hzero) a h hpa
    | false =>
      rw [List.find?_cons_of_neg _ (by simp [hp])]
      rcases List.mem_cons.mp ha with h | h
      · exact absurd (h ▸ hpa) (by simp [hp])
      · exact ih (by rw [hp] at hc; simpa using hc) h

/-- Master description of a successful `completeStudyEvent` call: it returns
the record `⟨eid, targetDate, true⟩`, leaves the event collection alone,
keeps the uniqueness invariant, and afterwards exactly one log matches the
key; a fresh key appends one record, an existing key is mutated in place. -/
theorem complete_success (db : DB) (eid uid : Nat) (dateArg : Option Int)
    (now : Int) (ev : StudyEvent)
    (hev : db.events.find? (fun e => e._id == eid && e.userId == uid) = some ev)
    (hU : UniqueLogs db) :
    ∃ db' : DB,
      completeStudyEvent db eid uid dateArg now =
        (Except.ok ⟨eid, dateArg.getD now, true⟩, db') ∧
      db'.events = db.events ∧
      UniqueLogs db' ∧
      (⟨eid, dateArg.getD now, true⟩ : LogRecord) ∈ db'.logs ∧
      db'.logs.countP (logMatches eid (dateArg.getD now)) = 1 ∧
      (db.logs.find? (logMatches eid (dateArg.getD now)) = none →
        db'.logs = db.logs ++ [⟨eid, dateArg.getD now, true⟩]) ∧
      ((db.logs.find? (logMatches eid (dateArg.getD now))).isSome →
        db'.logs.length = db.logs.length) := by
  simp only [completeStudyEvent, hev]
  cases hfl : db.logs.find? (logMatches eid (dateArg.getD now)) with
  | none =>
    refine ⟨_, rfl, rfl, ?_, ?_, ?_, fun _ => rfl, fun h => by simp at h⟩
    · rw [UniqueLogs, List.pairwise_append]
      refine ⟨hU, List.pairwise_singleton _ _, ?_⟩
      intro a ha b hb
      rcases List.mem_singleton.mp hb with rfl
      have := List.find?_eq_none.mp hfl a ha
      simpa [logMatches] using this
    · simp
    · rw [List.countP_append]
      have h0 : db.logs.countP (logMatches eid (dateArg.getD now)) = 0 :=
        List.countP_eq_zero.mpr (List.find?_eq_none.mp hfl)
      simp [h0, logMatches]
  | some ex =>
    have hkey : ex.eventId = eid ∧ ex.date = dateArg.getD now := by
      have := List.find?_some hfl
      simpa [logMatches] using this
    have hex : ({ ex with completed := true } : LogRecord) =
        ⟨eid, dateArg.getD now, true⟩ := by
      cases ex
      simp_all
    refine ⟨⟨db.events, updateFirst (logMatches eid (dateArg.getD now))
        (fun l => { l with completed := true }) db.logs⟩,
      ?_, rfl, ?_, ?_, ?_, fun h => by simp at h,
      fun _ => updateFirst_length _ _ _⟩
    · show (Except.ok ({ ex with completed := true } : LogRecord),
          (⟨db.events, updateFirst (logMatches eid (dateArg.getD now))
            (fun l => { l with completed := true }) db.logs⟩ : DB)) =
        (Except.ok (⟨eid, dateArg.getD now, true⟩ : LogRecord),
          (⟨db.events, updateFirst (logMatches eid (dateArg.getD now))
            (fun l => { l with completed := true }) db.logs⟩ : DB))
      rw [hex]
    · exact updateFirst_pairwise _ (fun l => { l with completed := true })
        (fun l => ⟨rfl, rfl⟩) _ hU
    · have hm := updateFirst_mem_of_find?
        (f := fun l => { l with completed := true }) hfl
      exact hex ▸ hm
    · show (updateFirst (logMatches eid (dateArg.getD now))
          (fun l => { l with completed := true }) db.logs).countP
          (logMatches eid (dateArg.getD now)) = 1
      rw [updateFirst_countP (logMatches eid (dateArg.getD now))
        (logMatches eid (dateArg.getD now))
        (fun l => { l with completed := true }) (fun l => rfl)]
      have hle := countP_logMatches_le_one eid (dateArg.getD now) db.logs hU
      have hpos : 0 < db.logs.countP (logMatches eid (dateArg.getD now)) :=
        List.countP_pos_iff.mpr ⟨ex, List.mem_of_find?_eq_some hfl,
          List.find?_some hfl⟩
      omega

/-! ### C2: uniqueness of completion records is an invariant of the engine -/


/-- C2: the empty store has at most one CompletionRecord per
`(eventId, date)` pair, and every engine operation — create, month listing,
today listing, mark-complete — preserves that invariant; hence it holds in
every reachable state. -/
theorem engine_preserves_unique_logs :
    UniqueLogs ⟨[], []⟩ ∧
    ∀ (op : EngineOp) (db : DB), UniqueLogs db → UniqueLogs (op.run db) := by
  constructor
  · exact List.Pairwise.nil
  · intro op db hU
    cases op with
    | create uid newId data =>
      simp only [EngineOp.run, controllerCreateStudyEvent]
      cases createValidationError data with
      | some f => exact hU
      | none => exact hU
    | listMonth _ _ => exact hU
    | listToday _ _ => exact hU
    | complete eid uid dateArg now =>
      cases hev : db.events.find? (fun e => e._id == eid && e.userId == uid) with
      | none =>
        simp only [EngineOp.run, completeStudyEvent, hev]
        exact hU
      | some ev =>
        obtain ⟨db', heq, _, hu, _⟩ :=
          complete_success db eid uid dateArg now ev hev hU
        simp only [EngineOp.run, heq]
        exact hu

/-- Witness for `engine_preserves_unique_logs`: completing an owned event in
a store holding that event and no logs keeps the invariant. -/
theorem engine_preserves_unique_logs_witness :
    UniqueLogs ((EngineOp.complete 1 2 (some 5) 0).run
      ⟨[⟨1, 2, "t", none, true, some ⟨"daily", []⟩, none, none, none⟩], []⟩) :=
  engine_preserves_unique_logs.2 _ _ List.Pairwise.nil

/-! ### C4: completion is idempotent -/

/-- C4: for a definition `e` owned by the caller and any date `D`, calling
`completeStudyEvent` twice succeeds both times, both calls return the record
`⟨e._id, D, completed := true⟩`, after each call exactly one log matches the
key `(e._id, D)`, that record is in the store with `completed = true`, and
the second call mutates in place: it adds no record (same log count). -/
theorem completeStudyEvent_idempotent (db : DB) (e : StudyEvent) (uid : Nat)
    (D now1 now2 : Int) (he : e ∈ db.events) (hu : e.userId = uid)
    (hU : UniqueLogs db) :
    ∃ db1 db2 : DB,
      completeStudyEvent db e._id uid (some D) now1 =
        (Except.ok ⟨e._id, D, true⟩, db1) ∧
      completeStudyEvent db1 e._id uid (some D) now2 =
        (Except.ok ⟨e._id, D, true⟩, db2) ∧
      db1.logs.countP (logMatches e._id D) = 1 ∧
      db2.logs.countP (logMatches e._id D) = 1 ∧
      (⟨e._id, D, true⟩ : LogRecord) ∈ db2.logs ∧
      db2.logs.length = db1.logs.length := by
  have hex : ∃ x ∈ db.events, (fun e' : StudyEvent =>
      e'._id == e._id && e'.userId == uid) x = true :=
    ⟨e, he, by simp [hu]⟩
  obtain ⟨ev, hev⟩ := Option.isSome_iff_exists.mp
    (List.find?_isSome.mpr hex)
  obtain ⟨db1, heq1, hevents1, hU1, hmem1, hcount1, -, -⟩ :=
    complete_success db e._id uid (some D) now1 ev hev hU
  have hev1 : db1.events.find?
      (fun e' => e'._id == e._id && e'.userId == uid) = some ev := by
    rw [hevents1]; exact hev
  obtain ⟨db2, heq2, hevents2, hU2, hmem2, hcount2, -, hlen2⟩ :=
    complete_success db1 e._id uid (some D) now2 ev hev1 hU1
  have hfind1 : db1.logs.find? (logMatches e._id D) =
      some ⟨e._id, D, true⟩ :=
    find?_eq_of_countP_one hcount1 hmem1 (by simp [logMatches])
  have hgd : (some D : Option Int).getD now2 = D := rfl
  exact ⟨db1, db2, heq1, heq2, hcount1, hcount2, hmem2,
    hlen2 (by rw [hgd, hfind1]; rfl)⟩

/-- Witness for `completeStudyEvent_idempotent`: one owned daily event, an
empty log store, completing day 5 twice. -/
theorem completeStudyEvent_idempotent_witness :
    ∃ db1 db2 : DB,
      completeStudyEvent
        ⟨[⟨1, 2, "t", none, true, some ⟨"daily", []⟩, none, none, none⟩], []⟩
        1 2 (some 5) 0 = (Except.ok ⟨1, 5, true⟩, db1) ∧
      completeStudyEvent db1 1 2 (some 5) 0 = (Except.ok ⟨1, 5, true⟩, db2) ∧
      db1.logs.countP (logMatches 1 5) = 1 ∧
      db2.logs.countP (logMatches 1 5) = 1 ∧
      (⟨1, 5, true⟩ : LogRecord) ∈ db2.logs ∧
      db2.logs.length = db1.logs.length :=
  completeStudyEvent_idempotent
    ⟨[⟨1, 2, "t", none, true, some ⟨"daily", []⟩, none, none, none⟩], []⟩
    ⟨1, 2, "t", none, true, some ⟨"daily", []⟩, none, none, none⟩
    2 5 0 0 (by simp) rfl List.Pairwise.nil

/-! ### C7: completing an absent or foreign event fails cleanly -/

/-- C7: `completeStudyEvent` fails with the NotFound error whenever no stored
definition has the requested id and owner (in particular when the definition
belongs to a different caller), and then the store is returned unchanged —
the ownership check precedes every write; on any error the store is
unchanged, and on success exactly one record exists for the key. -/
theorem completeStudyEvent_error_spec (db : DB) (eid uid : Nat)
    (dateArg : Option Int) (now : Int) (hU : UniqueLogs db) :
    ((∀ e ∈ db.events, ¬(e._id = eid ∧ e.userId = uid)) →
      completeStudyEvent db eid uid dateArg now =
        (Except.error NOT_FOUND, db)) ∧
    (∀ msg db', completeStudyEvent db eid uid dateArg now =
        (Except.error msg, db') → db' = db) ∧
    (∀ r db', completeStudyEvent db eid uid dateArg now =
        (Except.ok r, db') →
      db'.logs.countP (logMatches eid (dateArg.getD now)) = 1) := by
  refine ⟨?_, ?_, ?_⟩
  · intro hno
    have hnone : db.events.find?
        (fun e => e._id == eid && e.userId == uid) = none := by
      rw [List.find?_eq_none]
      intro e he
      have := hno e he
      simp only [Bool.and_eq_true, beq_iff_eq, not_and]
      intro h1
      exact fun h2 => this ⟨h1, h2⟩
    simp only [completeStudyEvent, hnone]
  · intro msg db' heq
    cases hev : db.events.find? (fun e => e._id == eid && e.userId == uid) with
    | none =>
      simp only [completeStudyEvent, hev] at heq
      exact (Prod.mk.injEq _ _ _ _ ▸ heq).2.symm ▸ rfl
    | some ev =>
      obtain ⟨db'', heq2, -⟩ :=
        complete_success db eid uid dateArg now ev hev hU
      rw [heq2] at heq
      exact absurd (congrArg Prod.fst heq) (by simp)
  · intro r db' heq
    cases hev : db.events.find? (fun e => e._id == eid && e.userId == uid) with
    | none =>
      simp only [completeStudyEvent, hev] at heq
      exact absurd (congrArg Prod.fst heq) (by simp)
    | some ev =>
      obtain ⟨db'', heq2, -, -, -, hcount, -⟩ :=
        complete_success db eid uid dateArg now ev hev hU
      rw [heq2] at heq
      have : db'' = db' := congrArg Prod.snd heq
      exact this ▸ hcount

/-- Witness for `completeStudyEvent_error_spec`: completing event 1 as caller
2 in a store whose only event is owned by caller 9 fails with NotFound and
leaves the store unchanged. -/
theorem completeStudyEvent_error_spec_witness :
    completeStudyEvent
      ⟨[⟨1, 9, "t", none, true, some ⟨"daily", []⟩, none, none, none⟩], []⟩
      1 2 none 0 =
      (Except.error NOT_FOUND,
        ⟨[⟨1, 9, "t", none, true, some ⟨"daily", []⟩, none, none, none⟩], []⟩) :=
  (completeStudyEvent_error_spec
    ⟨[⟨1, 9, "t", none, true, some ⟨"daily", []⟩, none, none, none⟩], []⟩
    1 2 none 0 List.Pairwise.nil).1 (by
      intro e he
      simp only [List.mem_singleton] at he
      subst he
      simp)

/-! ### Lemmas about event identity and the materializer's instance lists -/

theorem mem_eq_of_unique_ids {l : List StudyEvent}
    (h : l.Pairwise (fun a b => a._id ≠ b._id)) {a b : StudyEvent}
    (ha : a ∈ l) (hb : b ∈ l) (hid : a._id = b._id) : a = b := by
  induction l with
  | nil => simp at ha
  | cons x xs ih =>
    rcases List.pairwise_cons.mp h with ⟨hx, hxs⟩
    rcases List.mem_cons.mp ha with rfl | ha1
    · rcases List.mem_cons.mp hb with rfl | hb1
      · rfl
      · exact absurd hid (hx b hb1)
    · rcases List.mem_cons.mp hb with rfl | hb1
      · exact absurd hid.symm (hx a ha1)
      · exact ih hxs ha1 hb1

theorem countP_filter_id (events : List StudyEvent) (e : StudyEvent)
    (he : e ∈ events) (hids : events.Pairwise (fun a b => a._id ≠ b._id))
    (p : StudyEvent → Bool) :
    (events.filter p).countP (fun x => x._id == e._id) =
      if p e then 1 else 0 := by
  induction events with
  | nil => simp at he
  | cons x xs ih =>
    rcases List.pairwise_cons.mp hids with ⟨hx, hxs⟩
    rcases List.mem_cons.mp he with rfl | he1
    · have hzero : (xs.filter p).countP (fun a => a._id == e._id) = 0 := by
        rw [List.countP_eq_zero]
        intro a ha hpa
        exact absurd (beq_iff_eq.mp hpa).symm (hx a (List.mem_of_mem_filter ha))
      cases hp : p e with
      | true => simp [List.filter_cons, hp, List.countP_cons, hzero]
      | false => simp [List.filter_cons, hp, hzero]
    · have hxe : (x._id == e._id) = false := by
        simp only [beq_eq_false_iff_ne, ne_eq]
        exact hx e he1
      cases hp : p x with
      | true => simp [List.filter_cons, hp, List.countP_cons, hxe, ih he1 hxs]
      | false => simp [List.filter_cons, hp, ih he1 hxs]

theorem mem_monthRecurringInstances {db : DB} {uid : Nat} {s t : Int}
    {inst : Instance} :
    inst ∈ monthRecurringInstances db uid s t ↔
      ∃ e ∈ db.events, recurringPred uid e = true ∧
        ∃ d ∈ daysInRange s t, matchesRecurrence e d = true ∧
          inst = ⟨e, some d⟩ := by
  simp only [monthRecurringInstances, List.mem_flatMap, List.mem_filterMap,
    List.mem_filter]
  constructor
  · rintro ⟨e, ⟨he, hp⟩, d, hd, hfd⟩
    by_cases hm : matchesRecurrence e d = true
    · rw [if_pos hm] at hfd
      exact ⟨e, he, hp, d, hd, hm, (Option.some.injEq _ _).mp hfd.symm⟩
    · rw [if_neg hm] at hfd
      simp at hfd
  · rintro ⟨e, he, hp, d, hd, hm, rfl⟩
    exact ⟨e, ⟨he, hp⟩, d, hd, by rw [if_pos hm]⟩

/-! ### C6: a one-off definition appears exactly once, with its date -/

/-- C6: a non-recurring definition with stored `date = some D`, owned by the
queried user, contributes exactly one occurrence to `materializeMonth` when
`D` lies in the queried range and zero when it does not; and every occurrence
emitted for it carries the stored date unchanged. -/
theorem materializeMonth_oneOff (db : DB) (uid : Nat) (y m : Int)
    (e : StudyEvent) (he : e ∈ db.events) (hu : e.userId = uid)
    (hr : e.isRecurring = false) (D : Int) (hd : e.date = some D)
    (hids : UniqueEventIds db) :
    (materializeMonth db uid y m).countP (fun o => o.ev._id == e._id) =
      (if jsMakeDate y (m - 1) 1 ≤ D ∧ D ≤ jsMakeDate y m 0 then 1 else 0) ∧
    ∀ o ∈ materializeMonth db uid y m, o.ev._id = e._id →
      o.ev.date = some D := by
  constructor
  · simp only [materializeMonth]
    rw [List.countP_map]
    have hperm : List.Perm
        (monthInstances db uid (jsMakeDate y (m - 1) 1) (jsMakeDate y m 0))
        (monthOneTimeInstances db uid (jsMakeDate y (m - 1) 1)
            (jsMakeDate y m 0) ++
          monthRecurringInstances db uid (jsMakeDate y (m - 1) 1)
            (jsMakeDate y m 0)) := sortByKey_perm instKey _
    rw [List.Perm.countP_eq _ hperm, List.countP_append]
    have hOT : (monthOneTimeInstances db uid (jsMakeDate y (m - 1) 1)
        (jsMakeDate y m 0)).countP
        ((fun o => o.ev._id == e._id) ∘
          annotateInstance (monthLogs db uid (jsMakeDate y (m - 1) 1)
            (jsMakeDate y m 0))) =
        if jsMakeDate y (m - 1) 1 ≤ D ∧ D ≤ jsMakeDate y m 0 then 1
        else 0 := by
      rw [monthOneTimeInstances, List.countP_map]
      have hperm2 := sortByKey_perm eventDateKey
        (db.events.filter (oneTimeMonthPred uid (jsMakeDate y (m - 1) 1)
          (jsMakeDate y m 0)))
      rw [List.Perm.countP_eq _ hperm2]
      have := countP_filter_id db.events e he hids
        (oneTimeMonthPred uid (jsMakeDate y (m - 1) 1) (jsMakeDate y m 0))
      rw [show (((fun o : Occurrence => o.ev._id == e._id) ∘
          annotateInstance (monthLogs db uid (jsMakeDate y (m - 1) 1)
            (jsMakeDate y m 0))) ∘ (fun e' : StudyEvent => (⟨e', e'.date⟩ : Instance))) =
          (fun x : StudyEvent => x._id == e._id) from rfl]
      rw [this]
      by_cases hin : jsMakeDate y (m - 1) 1 ≤ D ∧ D ≤ jsMakeDate y m 0
      · rw [if_pos hin, if_pos]
        simp [oneTimeMonthPred, hu, hr, hd, hin.1, hin.2]
      · rw [if_neg hin, if_neg]
        simp only [oneTimeMonthPred, hd, hu, hr]
        simp only [not_and_or] at hin
        rcases hin with hlt | hlt <;> simp [hlt]
    have hRI : (monthRecurringInstances db uid (jsMakeDate y (m - 1) 1)
        (jsMakeDate y m 0)).countP
        ((fun o => o.ev._id == e._id) ∘
          annotateInstance (monthLogs db uid (jsMakeDate y (m - 1) 1)
            (jsMakeDate y m 0))) = 0 := by
      rw [List.countP_eq_zero]
      intro inst hinst hq
      rcases mem_monthRecurringInstances.mp hinst with
        ⟨e', he', hp, d, hdm, hm, rfl⟩
      have hideq : e'._id = e._id := by
        simpa using hq
      have : e' = e := mem_eq_of_unique_ids hids he' he hideq
      subst this
      rw [recurringPred, hr] at hp
      simp at hp
    rw [hOT, hRI]
    omega
  · intro o ho hid
    simp only [materializeMonth] at ho
    rcases List.mem_map.mp ho with ⟨inst, hinst, rfl⟩
    have hinst2 : inst ∈
        monthOneTimeInstances db uid (jsMakeDate y (m - 1) 1)
            (jsMakeDate y m 0) ++
          monthRecurringInstances db uid (jsMakeDate y (m - 1) 1)
            (jsMakeDate y m 0) :=
      (sortByKey_perm instKey _).mem_iff.mp hinst
    rcases List.mem_append.mp hinst2 with h1 | h2
    · rcases List.mem_map.mp h1 with ⟨e', he', rfl⟩
      have he'm := (sortByKey_perm eventDateKey _).mem_iff.mp he'
      have he'mem := List.mem_of_mem_filter he'm
      have heq : e' = e := mem_eq_of_unique_ids hids he'mem he (by simpa using hid)
      subst heq
      simpa [annotateInstance] using hd
    · rcases mem_monthRecurringInstances.mp h2 with
        ⟨e', he', hp, d, hdm, hm, rfl⟩
      have heq : e' = e := mem_eq_of_unique_ids hids he' he (by simpa using hid)
      subst heq
      rw [recurringPred, hr] at hp
      simp at hp

/-- Witness for `materializeMonth_oneOff`: one one-off event dated 2024-03-15
(day 19797), queried for March 2024. -/
theorem materializeMonth_oneOff_witness :
    (materializeMonth
        ⟨[⟨1, 2, "t", some 19797, false, some ⟨"daily", []⟩, none, none,
          none⟩], []⟩ 2 2024 3).countP (fun o => o.ev._id == 1) =
      (if jsMakeDate 2024 (3 - 1) 1 ≤ 19797 ∧ 19797 ≤ jsMakeDate 2024 3 0
        then 1 else 0) ∧
    ∀ o ∈ materializeMonth
        ⟨[⟨1, 2, "t", some 19797, false, some ⟨"daily", []⟩, none, none,
          none⟩], []⟩ 2 2024 3, o.ev._id = 1 → o.ev.date = some 19797 :=
  materializeMonth_oneOff
    ⟨[⟨1, 2, "t", some 19797, false, some ⟨"daily", []⟩, none, none, none⟩],
      []⟩ 2 2024 3
    ⟨1, 2, "t", some 19797, false, some ⟨"daily", []⟩, none, none, none⟩
    (by simp) rfl rfl 19797 rfl (List.pairwise_singleton _ _)

/-- A recurring definition owned by the queried user that fires on a day of
the range contributes an occurrence dated that day. -/
theorem materializeMonth_mem_recurring (db : DB) (uid : Nat) (y m : Int)
    (e : StudyEvent) (he : e ∈ db.events) (hu : e.userId = uid)
    (hr : e.isRecurring = true) (d : Int)
    (hd : d ∈ daysInRange (jsMakeDate y (m - 1) 1) (jsMakeDate y m 0))
    (hm : matchesRecurrence e d = true) :
    ∃ o ∈ materializeMonth db uid y m,
      o.ev._id = e._id ∧ o.ev.date = some d := by
  have hinst : (⟨e, some d⟩ : Instance) ∈
      monthRecurringInstances db uid (jsMakeDate y (m - 1) 1)
        (jsMakeDate y m 0) :=
    mem_monthRecurringInstances.mpr
      ⟨e, he, by simp [recurringPred, hu, hr], d, hd, hm, rfl⟩
  have hinst2 : (⟨e, some d⟩ : Instance) ∈
      monthInstances db uid (jsMakeDate y (m - 1) 1) (jsMakeDate y m 0) :=
    (sortByKey_perm instKey _).mem_iff.mpr (List.mem_append_right _ hinst)
  exact ⟨annotateInstance
      (monthLogs db uid (jsMakeDate y (m - 1) 1) (jsMakeDate y m 0))
      ⟨e, some d⟩,
    List.mem_map_of_mem _ hinst2, rfl, rfl⟩

/-! ### C10: recurring creation without a recurrence object -/

/-- C10: a create request with `isRecurring = true`, no `recurrence` object,
and a non-blank title passes the controller validation (the weekly/custom
`daysOfWeek` check is skipped); the stored definition gets the default
`{type: 'daily', daysOfWeek: []}`; the evaluator then fires on every date,
so the definition materializes on every day of any queried month. -/
theorem createStudyEvent_no_recurrence (db : DB) (uid newId : Nat)
    (data : CreateInput) (hrec : data.isRecurring = true)
    (hnone : data.recurrence = none) (htitle : ¬ jsTrim data.title = "") :
    createValidationError data = none ∧
    (serviceCreateStudyEvent db uid newId data).1.recurrence =
      some ⟨"daily", []⟩ ∧
    (∀ d : Int,
      matchesRecurrence (serviceCreateStudyEvent db uid newId data).1 d =
        true) ∧
    (∀ y m d : Int,
      d ∈ daysInRange (jsMakeDate y (m - 1) 1) (jsMakeDate y m 0) →
      ∃ o ∈ materializeMonth (serviceCreateStudyEvent db uid newId data).2
          uid y m,
        o.ev._id = newId ∧ o.ev.date = some d) := by
  have hmatch : ∀ d : Int,
      matchesRecurrence (serviceCreateStudyEvent db uid newId data).1 d =
        true := by
    intro d
    simp [matchesRecurrence, serviceCreateStudyEvent, hrec, hnone]
  refine ⟨?_, ?_, hmatch, ?_⟩
  · simp [createValidationError, htitle, hnone, hrec]
  · simp [serviceCreateStudyEvent, hnone]
  · intro y m d hd
    have hmem : (serviceCreateStudyEvent db uid newId data).1 ∈
        (serviceCreateStudyEvent db uid newId data).2.events := by
      simp [serviceCreateStudyEvent]
    exact materializeMonth_mem_recurring
      (serviceCreateStudyEvent db uid newId data).2 uid y m
      (serviceCreateStudyEvent db uid newId data).1 hmem rfl
      (by simp [serviceCreateStudyEvent, hrec]) d hd (hmatch d)

/-- Witness for `createStudyEvent_no_recurrence`: create with
`{title: "Study", isRecurring: true}` and no recurrence; the stored event
fires on 2024-03-15 (day 19797) and appears in the March 2024 view. -/
theorem createStudyEvent_no_recurrence_witness :
    createValidationError ⟨"Study", none, true, none, none, none, none⟩ =
      none ∧
    (serviceCreateStudyEvent ⟨[], []⟩ 2 7
      ⟨"Study", none, true, none, none, none, none⟩).1.recurrence =
      some ⟨"daily", []⟩ ∧
    matchesRecurrence (serviceCreateStudyEvent ⟨[], []⟩ 2 7
      ⟨"Study", none, true, none, none, none, none⟩).1 19797 = true ∧
    ∃ o ∈ materializeMonth (serviceCreateStudyEvent ⟨[], []⟩ 2 7
        ⟨"Study", none, true, none, none, none, none⟩).2 2 2024 3,
      o.ev._id = 7 ∧ o.ev.date = some 19797 :=
  have h := createStudyEvent_no_recurrence ⟨[], []⟩ 2 7
    ⟨"Study", none, true, none, none, none, none⟩ rfl rfl (by decide)
  ⟨h.1, h.2.1, h.2.2.1 19797, h.2.2.2 2024 3 19797 (by decide)⟩

/-! ### C9: month-token validation -/

/-- Counterexample to C9 as stated: `"2024-13"` is not a well-formed
calendar-month token (month 13), yet it passes the controller's
`^\d{4}-\d{2}$` shape check and reaches the Materializer, which even
produces 31 occurrences for it (JavaScript `Date` rolls 2024-13 over into
January 2025). -/
theorem getStudyEvents_non_calendar_token_reaches_materializer :
    isCalendarMonthToken "2024-13" = false ∧
    isValidMonthToken "2024-13" = true ∧
    controllerGetStudyEvents dbDaily 2 (some "2024-13") =
      GetEventsResult.success (getStudyEventsForMonth dbDaily 2 "2024-13") ∧
    (getStudyEventsForMonth dbDaily 2 "2024-13").length = 31 :=
  ⟨by decide, by decide, rfl, by decide⟩

/-- C9 (amended): a missing month parameter, or one failing the
`^\d{4}-\d{2}$` shape check, is rejected with a Validation error on the
`month` field and the Materializer is never invoked (for every store alike);
conversely every successful response comes from a token that passed the
shape check — but shape-valid non-calendar months (e.g. `"2024-13"`) do
reach the Materializer. -/
theorem controllerGetStudyEvents_validation (db : DB) (uid : Nat)
    (month : Option String) :
    (month = none → controllerGetStudyEvents db uid month =
      GetEventsResult.validationError "month") ∧
    (∀ s, month = some s → isValidMonthToken s = false →
      controllerGetStudyEvents db uid month =
        GetEventsResult.validationError "month") ∧
    (∀ l, controllerGetStudyEvents db uid month = GetEventsResult.success l →
      ∃ s, month = some s ∧ isValidMonthToken s = true ∧
        l = getStudyEventsForMonth db uid s) := by
  refine ⟨?_, ?_, ?_⟩
  · rintro rfl
    rfl
  · rintro s rfl hbad
    simp [controllerGetStudyEvents, hbad]
  · intro l heq
    cases month with
    | none => simp [controllerGetStudyEvents] at heq
    | some s =>
      by_cases hv : isValidMonthToken s = true
      · simp only [controllerGetStudyEvents, if_pos hv,
          GetEventsResult.success.injEq] at heq
        exact ⟨s, rfl, hv, heq.symm⟩
      · simp [controllerGetStudyEvents, hv] at heq

/-- Witness for `controllerGetStudyEvents_validation`: the token `"24-3"`
fails the shape check and is rejected. -/
theorem controllerGetStudyEvents_validation_witness :
    controllerGetStudyEvents ⟨[], []⟩ 2 (some "24-3") =
      GetEventsResult.validationError "month" :=
  (controllerGetStudyEvents_validation ⟨[], []⟩ 2 (some "24-3")).2.1
    "24-3" rfl (by decide)

/-! ### Inversion lemmas for the materializer -/

theorem mem_daysInRange {s t d : Int} :
    d ∈ daysInRange s t ↔ s ≤ d ∧ d ≤ t := by
  unfold daysInRange
  rw [List.mem_map]
  constructor
  · rintro ⟨i, hi, rfl⟩
    rw [List.mem_range] at hi
    have := Int.lt_toNat.mp hi
    omega
  · rintro ⟨h1, h2⟩
    refine ⟨(d - s).toNat, List.mem_range.mpr ?_, ?_⟩
    · omega
    · omega

theorem mem_monthOneTimeInstances {db : DB} {uid : Nat} {s t : Int}
    {inst : Instance} :
    inst ∈ monthOneTimeInstances db uid s t ↔
      ∃ e ∈ db.events, oneTimeMonthPred uid s t e = true ∧
        inst = ⟨e, e.date⟩ := by
  simp only [monthOneTimeInstances, List.mem_map]
  constructor
  · rintro ⟨e, he, rfl⟩
    have he2 := (sortByKey_perm eventDateKey _).mem_iff.mp he
    rcases List.mem_filter.mp he2 with ⟨hmem, hp⟩
    exact ⟨e, hmem, hp, rfl⟩
  · rintro ⟨e, hmem, hp, rfl⟩
    exact ⟨e, (sortByKey_perm eventDateKey _).mem_iff.mpr
      (List.mem_filter.mpr ⟨hmem, hp⟩), rfl⟩

theorem mem_materializeMonth_inv {db : DB} {uid : Nat} {y m : Int}
    {o : Occurrence} (ho : o ∈ materializeMonth db uid y m) :
    ∃ inst,
      (inst ∈ monthOneTimeInstances db uid (jsMakeDate y (m - 1) 1)
          (jsMakeDate y m 0) ∨
        inst ∈ monthRecurringInstances db uid (jsMakeDate y (m - 1) 1)
          (jsMakeDate y m 0)) ∧
      inst ∈ monthInstances db uid (jsMakeDate y (m - 1) 1)
        (jsMakeDate y m 0) ∧
      o = annotateInstance (monthLogs db uid (jsMakeDate y (m - 1) 1)
        (jsMakeDate y m 0)) inst := by
  simp only [materializeMonth] at ho
  rcases List.mem_map.mp ho with ⟨inst, hinst, rfl⟩
  have h2 : inst ∈ monthOneTimeInstances db uid (jsMakeDate y (m - 1) 1)
        (jsMakeDate y m 0) ++
      monthRecurringInstances db uid (jsMakeDate y (m - 1) 1)
        (jsMakeDate y m 0) :=
    (sortByKey_perm instKey _).mem_iff.mp hinst
  exact ⟨inst, List.mem_append.mp h2, hinst, rfl⟩

/-- Inside the batched month log query, looking up a key whose event id is
among the materialized instances and whose date is in range sees exactly the
logs of the full store for that key. -/
theorem lookupLog_monthLogs (db : DB) (uid : Nat) (s t : Int) (eid : Nat)
    (d : Int) (hd : s ≤ d ∧ d ≤ t)
    (hin : eid ∈ (monthInstances db uid s t).map (fun i => i.ev._id)) :
    lookupLog (monthLogs db uid s t) eid d = lookupLog db.logs eid d := by
  simp only [lookupLog, monthLogs, List.filter_filter]
  congr 1
  apply congrArg
  apply List.filter_congr
  intro l hl
  cases hq : logMatches eid d l with
  | false => simp [hq]
  | true =>
    rcases (by simpa [logMatches] using hq : l.eventId = eid ∧ l.date = d)
      with ⟨h1, h2⟩
    have hc : ((monthInstances db uid s t).map
        (fun i => i.ev._id)).contains l.eventId = true := by
      rw [h1]
      exact List.elem_iff.mpr hin
    have hdl1 : decide (s ≤ l.date) = true := by
      rw [h2]; exact decide_eq_true hd.1
    have hdl2 : decide (l.date ≤ t) = true := by
      rw [h2]; exact decide_eq_true hd.2
    simp only [hq, hc, hdl1, hdl2, Bool.true_and, Bool.and_self]

/-- Any candidate instance (one-time or recurring) survives the sort and is
emitted, annotated, by the materializer. -/
theorem annot_mem_materializeMonth {db : DB} {uid : Nat} {y m : Int}
    {inst : Instance}
    (h : inst ∈ monthOneTimeInstances db uid (jsMakeDate y (m - 1) 1)
        (jsMakeDate y m 0) ++
      monthRecurringInstances db uid (jsMakeDate y (m - 1) 1)
        (jsMakeDate y m 0)) :
    inst ∈ monthInstances db uid (jsMakeDate y (m - 1) 1)
      (jsMakeDate y m 0) ∧
    annotateInstance (monthLogs db uid (jsMakeDate y (m - 1) 1)
      (jsMakeDate y m 0)) inst ∈ materializeMonth db uid y m :=
  have h2 : inst ∈ monthInstances db uid (jsMakeDate y (m - 1) 1)
      (jsMakeDate y m 0) := (sortByKey_perm instKey _).mem_iff.mpr h
  ⟨h2, List.mem_map_of_mem _ h2⟩

/-! ### C3: round-trip of completion through the month listing -/

/-- C3: for an owner's definition `e` with an occurrence on 2024-03-15
(day 19797) — either a one-off dated that day or a recurring definition
firing that day — and no prior completion records of `e` in March 2024
(days 19783–19813), completing `(e, 2024-03-15)` makes the March 2024
listing contain an occurrence of `e` dated 2024-03-15 with
`completed = true`, while every other occurrence of `e` in that month has
`completed = false`. -/
theorem roundTrip_completion_march (db : DB) (e : StudyEvent) (uid : Nat)
    (now : Int) (he : e ∈ db.events) (hu : e.userId = uid)
    (hids : UniqueEventIds db)
    (hocc : (e.isRecurring = false ∧ e.date = some 19797) ∨
      (e.isRecurring = true ∧ matchesRecurrence e 19797 = true))
    (hnolog : ∀ l ∈ db.logs, l.eventId = e._id →
      ¬(jsMakeDate 2024 (3 - 1) 1 ≤ l.date ∧ l.date ≤ jsMakeDate 2024 3 0)) :
    (∃ o ∈ getStudyEventsForMonth
        (completeStudyEvent db e._id uid (some 19797) now).2 uid "2024-03",
      o.ev._id = e._id ∧ o.ev.date = some 19797 ∧ o.completed = true) ∧
    ∀ o ∈ getStudyEventsForMonth
        (completeStudyEvent db e._id uid (some 19797) now).2 uid "2024-03",
      o.ev._id = e._id → o.ev.date ≠ some 19797 → o.completed = false := by
  have hex : ∃ x ∈ db.events, (fun e' : StudyEvent =>
      e'._id == e._id && e'.userId == uid) x = true := ⟨e, he, by simp [hu]⟩
  obtain ⟨ev, hev⟩ := Option.isSome_iff_exists.mp (List.find?_isSome.mpr hex)
  have hin1519 : jsMakeDate 2024 (3 - 1) 1 ≤ (19797 : Int) ∧
      (19797 : Int) ≤ jsMakeDate 2024 3 0 := by decide
  have hflnone : db.logs.find? (logMatches e._id 19797) = none := by
    rw [List.find?_eq_none]
    intro l hl hq
    rcases (by simpa [logMatches] using hq : l.eventId = e._id ∧
      l.date = 19797) with ⟨h1, h2⟩
    exact hnolog l hl h1 (by rw [h2]; exact hin1519)
  have hcomp : completeStudyEvent db e._id uid (some 19797) now =
      (Except.ok ⟨e._id, 19797, true⟩,
        ⟨db.events, db.logs ++ [⟨e._id, 19797, true⟩]⟩) := by
    simp only [completeStudyEvent, hev, Option.getD_some, hflnone]
  rw [hcomp]
  have hget : getStudyEventsForMonth
      (⟨db.events, db.logs ++ [(⟨e._id, 19797, true⟩ : LogRecord)]⟩ : DB)
      uid "2024-03" =
      materializeMonth
        (⟨db.events, db.logs ++ [(⟨e._id, 19797, true⟩ : LogRecord)]⟩ : DB)
        uid 2024 3 := rfl
  rw [hget]
  have hfilterold : ∀ d' : Int,
      jsMakeDate 2024 (3 - 1) 1 ≤ d' → d' ≤ jsMakeDate 2024 3 0 →
      db.logs.filter (logMatches e._id d') = [] := by
    intro d' hd1 hd2
    rw [List.filter_eq_nil_iff]
    intro l hl hq
    rcases (by simpa [logMatches] using hq : l.eventId = e._id ∧
      l.date = d') with ⟨h1, h2⟩
    exact hnolog l hl h1 (by rw [h2]; exact ⟨hd1, hd2⟩)
  constructor
  · -- the completed occurrence exists
    have hinstOR : (if e.isRecurring then
        (⟨e, some 19797⟩ : Instance) else ⟨e, e.date⟩) ∈
        monthOneTimeInstances
            (⟨db.events, db.logs ++ [(⟨e._id, 19797, true⟩ : LogRecord)]⟩ : DB)
            uid (jsMakeDate 2024 (3 - 1) 1) (jsMakeDate 2024 3 0) ++
          monthRecurringInstances
            (⟨db.events, db.logs ++ [(⟨e._id, 19797, true⟩ : LogRecord)]⟩ : DB)
            uid (jsMakeDate 2024 (3 - 1) 1) (jsMakeDate 2024 3 0) := by
      rcases hocc with ⟨hr, hd⟩ | ⟨hr, hm⟩
      · rw [hr]
        apply List.mem_append_left
        apply mem_monthOneTimeInstances.mpr
        have hin2 : jsMakeDate 2024 2 1 ≤ (19797 : Int) ∧
            (19797 : Int) ≤ jsMakeDate 2024 3 0 := by decide
        exact ⟨e, he, by simp [oneTimeMonthPred, hu, hr, hd, hin2.1,
          hin2.2], by simp⟩
      · rw [hr]
        apply List.mem_append_right
        apply mem_monthRecurringInstances.mpr
        exact ⟨e, he, by simp [recurringPred, hu, hr], 19797,
          mem_daysInRange.mpr hin1519, hm, rfl⟩
    obtain ⟨hinstmem, homem⟩ := annot_mem_materializeMonth hinstOR
    have hidmem : e._id ∈ (monthInstances
        (⟨db.events, db.logs ++ [(⟨e._id, 19797, true⟩ : LogRecord)]⟩ : DB)
        uid (jsMakeDate 2024 (3 - 1) 1) (jsMakeDate 2024 3 0)).map
        (fun i => i.ev._id) := by
      have := List.mem_map_of_mem (fun i : Instance => i.ev._id) hinstmem
      rcases hocc with ⟨hr, _⟩ | ⟨hr, _⟩ <;> simpa [hr] using this
    have hlooknew : lookupLog
        (db.logs ++ [(⟨e._id, 19797, true⟩ : LogRecord)]) e._id 19797 =
        some true := by
      unfold lookupLog
      rw [List.filter_append, hfilterold 19797 hin1519.1 hin1519.2]
      simp [logMatches]
    have hlookmonth := lookupLog_monthLogs
      (⟨db.events, db.logs ++ [(⟨e._id, 19797, true⟩ : LogRecord)]⟩ : DB)
      uid (jsMakeDate 2024 (3 - 1) 1) (jsMakeDate 2024 3 0) e._id 19797
      hin1519 hidmem
    rcases hocc with ⟨hr, hd⟩ | ⟨hr, hm⟩
    · refine ⟨annotateInstance (monthLogs
        (⟨db.events, db.logs ++ [(⟨e._id, 19797, true⟩ : LogRecord)]⟩ : DB)
        uid (jsMakeDate 2024 (3 - 1) 1) (jsMakeDate 2024 3 0)) ⟨e, e.date⟩,
        ?_, rfl, hd, ?_⟩
      · have := homem
        rw [hr] at this
        exact this
      · show (match e.date with
          | some d => (lookupLog (monthLogs _ uid _ _) e._id d).getD false
          | none => false) = true
        rw [hd]
        show (lookupLog (monthLogs
          (⟨db.events, db.logs ++ [(⟨e._id, 19797, true⟩ : LogRecord)]⟩ : DB)
          uid (jsMakeDate 2024 (3 - 1) 1) (jsMakeDate 2024 3 0))
          e._id 19797).getD false = true
        rw [hlookmonth, hlooknew]
        rfl
    · refine ⟨annotateInstance (monthLogs
        (⟨db.events, db.logs ++ [(⟨e._id, 19797, true⟩ : LogRecord)]⟩ : DB)
        uid (jsMakeDate 2024 (3 - 1) 1) (jsMakeDate 2024 3 0))
        ⟨e, some 19797⟩, ?_, rfl, rfl, ?_⟩
      · have := homem
        rw [hr] at this
        exact this
      · show (lookupLog (monthLogs
          (⟨db.events, db.logs ++ [(⟨e._id, 19797, true⟩ : LogRecord)]⟩ : DB)
          uid (jsMakeDate 2024 (3 - 1) 1) (jsMakeDate 2024 3 0))
          e._id 19797).getD false = true
        rw [hlookmonth, hlooknew]
        rfl
  · -- every other occurrence of e is not completed
    intro o ho hid hne
    obtain ⟨inst, hOR, hinstmem, rfl⟩ := mem_materializeMonth_inv ho
    have hevmem : inst.ev ∈ db.events := by
      rcases hOR with h1 | h2
      · rcases mem_monthOneTimeInstances.mp h1 with ⟨e', he', hp, rfl⟩
        exact he'
      · rcases mem_monthRecurringInstances.mp h2 with
          ⟨e', he', hp, d, hd2, hm2, rfl⟩
        exact he'
    have hinste : inst.ev = e := mem_eq_of_unique_ids hids hevmem he hid
    cases hinstd : inst.instanceDate with
    | none =>
      show (match inst.instanceDate with
        | some d => (lookupLog _ inst.ev._id d).getD false
        | none => false) = false
      rw [hinstd]
    | some d' =>
      have hne' : d' ≠ 19797 := by
        intro hcontra
        exact hne (by
          show inst.instanceDate = some 19797
          rw [hinstd, hcontra])
      have hbounds : jsMakeDate 2024 (3 - 1) 1 ≤ d' ∧
          d' ≤ jsMakeDate 2024 3 0 := by
        rcases hOR with h1 | h2
        · rcases mem_monthOneTimeInstances.mp h1 with ⟨e', he', hp, heq⟩
          have hdate : e'.date = some d' := by
            have : inst.instanceDate = e'.date := by rw [heq]
            rw [hinstd] at this
            exact this.symm
          rw [oneTimeMonthPred, hdate] at hp
          simp only [Bool.and_eq_true, decide_eq_true_eq] at hp
          exact hp.2
        · rcases mem_monthRecurringInstances.mp h2 with
            ⟨e', he', hp, d, hd2, hm2, heq⟩
          have : d = d' := by
            have h3 : inst.instanceDate = some d := by rw [heq]
            rw [hinstd] at h3
            exact (Option.some.injEq _ _).mp h3.symm
          exact this ▸ mem_daysInRange.mp hd2
      have hidmem2 : e._id ∈ (monthInstances
          (⟨db.events, db.logs ++ [(⟨e._id, 19797, true⟩ : LogRecord)]⟩ : DB)
          uid (jsMakeDate 2024 (3 - 1) 1) (jsMakeDate 2024 3 0)).map
          (fun i => i.ev._id) := by
        have := List.mem_map_of_mem (fun i : Instance => i.ev._id) hinstmem
        simpa [hinste] using this
      have hlooknone : lookupLog
          (db.logs ++ [(⟨e._id, 19797, true⟩ : LogRecord)]) e._id d' =
          none := by
        unfold lookupLog
        rw [List.filter_append, hfilterold d' hbounds.1 hbounds.2]
        have : ([(⟨e._id, 19797, true⟩ : LogRecord)]).filter
            (logMatches e._id d') = [] := by
          simp [logMatches, hne'.symm]
        rw [this]
        rfl
      show (match inst.instanceDate with
        | some d => (lookupLog (monthLogs
            (⟨db.events, db.logs ++ [(⟨e._id, 19797, true⟩ : LogRecord)]⟩ : DB)
            uid (jsMakeDate 2024 (3 - 1) 1) (jsMakeDate 2024 3 0))
            inst.ev._id d).getD false
        | none => false) = false
      rw [hinstd]
      show (lookupLog (monthLogs
          (⟨db.events, db.logs ++ [(⟨e._id, 19797, true⟩ : LogRecord)]⟩ : DB)
          uid (jsMakeDate 2024 (3 - 1) 1) (jsMakeDate 2024 3 0))
          inst.ev._id d').getD false = false
      rw [hinste, lookupLog_monthLogs _ uid _ _ e._id d' hbounds hidmem2,
        hlooknone]
      rfl

/-- Witness for `roundTrip_completion_march`: one daily recurring event,
empty log store, completing 2024-03-15. -/
theorem roundTrip_completion_march_witness :
    (∃ o ∈ getStudyEventsForMonth
        (completeStudyEvent
          ⟨[⟨1, 2, "t", none, true, some ⟨"daily", []⟩, none, none, none⟩],
            []⟩ 1 2 (some 19797) 0).2 2 "2024-03",
      o.ev._id = 1 ∧ o.ev.date = some 19797 ∧ o.completed = true) ∧
    ∀ o ∈ getStudyEventsForMonth
        (completeStudyEvent
          ⟨[⟨1, 2, "t", none, true, some ⟨"daily", []⟩, none, none, none⟩],
            []⟩ 1 2 (some 19797) 0).2 2 "2024-03",
      o.ev._id = 1 → o.ev.date ≠ some 19797 → o.completed = false :=
  roundTrip_completion_march
    ⟨[⟨1, 2, "t", none, true, some ⟨"daily", []⟩, none, none, none⟩], []⟩
    ⟨1, 2, "t", none, true, some ⟨"daily", []⟩, none, none, none⟩
    2 0 (by simp) rfl (List.pairwise_singleton _ _)
    (Or.inr ⟨rfl, by decide⟩)
    (by intro l hl; simp at hl)

/-! ### Lemmas for the today-view refinement -/

theorem daysInRange_nodup (s t : Int) : (daysInRange s t).Nodup :=
  (List.nodup_range _).map (fun a b h => by omega)

theorem filterMap_single {α : Type} {ds : List Int} (hnodup : ds.Nodup)
    {c : Int} (hc : c ∈ ds) (v : Option α) :
    ds.filterMap (fun d => if d = c then v else none) = v.toList := by
  induction ds with
  | nil => simp at hc
  | cons x xs ih =>
    rcases List.nodup_cons.mp hnodup with ⟨hx, hxs⟩
    rcases List.mem_cons.mp hc with rfl | hc1
    · have htail : xs.filterMap (fun d => if d = c then v else none) = [] := by
        rw [List.filterMap_eq_nil_iff]
        intro d hd
        rw [if_neg]
        intro hdc
        exact hx (hdc ▸ hd)
      simp only [List.filterMap_cons, if_pos rfl]
      cases v with
      | none => simp [htail]
      | some a => simp [htail]
    · have hxne : x ≠ c := fun h => hx (h ▸ hc1)
      simp only [List.filterMap_cons, if_neg hxne]
      exact ih hxs hc1

theorem flatMap_option_toList {α β : Type} (l : List α) (f : α → Option β) :
    l.flatMap (fun a => (f a).toList) = l.filterMap f := by
  induction l with
  | nil => rfl
  | cons x xs ih =>
    rw [List.flatMap_cons, List.filterMap_cons, ih]
    cases f x <;> simp

theorem flatMap_congr {α β : Type} {l : List α} {f g : α → List β}
    (h : ∀ a ∈ l, f a = g a) : l.flatMap f = l.flatMap g := by
  induction l with
  | nil => rfl
  | cons x xs ih =>
    rw [List.flatMap_cons, List.flatMap_cons,
      h x (List.mem_cons_self _ _),
      ih (fun a ha => h a (List.mem_cons_of_mem _ ha))]

/-- The month view's completion flag for an occurrence dated today and the
today view's completion flag agree: both reduce to the last completion log
of the full store for that `(eventId, today)` key. -/
theorem completed_agree (db : DB) (uid : Nat) (s t today : Int)
    (hs : s ≤ today) (ht : today ≤ t) (eid : Nat)
    (hmonth : eid ∈ (monthInstances db uid s t).map (fun i => i.ev._id))
    (htoday : eid ∈ (todayEvents db uid today).map (fun e => e._id)) :
    (lookupLog (monthLogs db uid s t) eid today).getD false =
      todayCompleted (todayLogs db uid today) eid := by
  rw [lookupLog_monthLogs db uid s t eid today ⟨hs, ht⟩ hmonth]
  have hfeq : db.logs.filter (fun l => (l.eventId == eid) &&
      (((todayEvents db uid today).map (fun e => e._id)).contains l.eventId &&
        (l.date == today))) = db.logs.filter (logMatches eid today) := by
    apply List.filter_congr
    intro l hl
    cases hq : logMatches eid today l with
    | true =>
      rcases (by simpa [logMatches] using hq : l.eventId = eid ∧
        l.date = today) with ⟨h1, h2⟩
      have hc : ((todayEvents db uid today).map
          (fun e => e._id)).contains eid = true :=
        List.elem_iff.mpr htoday
      rw [h1, h2]
      simp only [beq_self_eq_true, Bool.true_and, Bool.and_true]
      exact hc
    | false =>
      by_cases h1 : l.eventId = eid
      · have h2 : (l.date == today) = false := by
          rw [beq_eq_false_iff_ne]
          intro h2
          rw [logMatches] at hq
          simp [h1, h2] at hq
        simp [h2]
      · simp [beq_eq_false_iff_ne.mpr h1]
  simp only [todayCompleted, todayLogs, lookupLog, List.filter_filter]
  rw [hfeq]

/-- Core of the today-view refinement: filtering the annotated month
instances to occurrences dated `today` and dropping the `instanceDate`
annotation yields exactly the today view, for any range containing today. -/
theorem filter_today_core (db : DB) (uid : Nat) (s t today : Int)
    (hs : s ≤ today) (ht : today ≤ t) :
    (((monthInstances db uid s t).map
        (annotateInstance (monthLogs db uid s t))).filter
      (fun o => o.ev.date == some today)).map
      (fun o => { o with instanceDate := none }) =
    getTodayStudyEvents db uid today := by
  rw [List.filter_map, List.map_map]
  have hpcomp : ∀ i ∈ monthInstances db uid s t,
      ((fun o : Occurrence => o.ev.date == some today) ∘
        annotateInstance (monthLogs db uid s t)) i =
      ((fun i : Instance => i.instanceDate == some today) i) :=
    fun i _ => rfl
  rw [List.filter_congr hpcomp]
  have hkey : ∀ i : Instance,
      ((fun i : Instance => i.instanceDate == some today) i) = true →
      instKey i = today := by
    intro i hi
    have h2 : i.instanceDate = some today := by simpa using hi
    simp [instKey, h2]
  rw [show monthInstances db uid s t = sortByKey instKey
      (monthOneTimeInstances db uid s t ++
        monthRecurringInstances db uid s t) from rfl]
  rw [filter_sortByKey instKey _ today hkey, List.filter_append]
  have hOT : (monthOneTimeInstances db uid s t).filter
      (fun i => i.instanceDate == some today) =
      (db.events.filter (todayOneTimePred uid today)).map
        (fun e => (⟨e, e.date⟩ : Instance)) := by
    rw [monthOneTimeInstances, List.filter_map]
    have hpe : ∀ e ∈ sortByKey eventDateKey
        (db.events.filter (oneTimeMonthPred uid s t)),
        ((fun i : Instance => i.instanceDate == some today) ∘
          fun e => (⟨e, e.date⟩ : Instance)) e =
        ((fun e : StudyEvent => e.date == some today) e) := fun e _ => rfl
    rw [List.filter_congr hpe]
    have hkey2 : ∀ e : StudyEvent,
        ((fun e : StudyEvent => e.date == some today) e) = true →
        eventDateKey e = today := by
      intro e hi
      have h2 : e.date = some today := by simpa using hi
      simp [eventDateKey, h2]
    rw [filter_sortByKey eventDateKey _ today hkey2, List.filter_filter]
    congr 1
    apply List.filter_congr
    intro e he
    cases hd : e.date with
    | none => simp [oneTimeMonthPred, todayOneTimePred, hd]
    | some d0 =>
      by_cases hdt : d0 = today
      · subst hdt
        simp [oneTimeMonthPred, todayOneTimePred, hd, hs, ht]
      · have hb : (d0 == today) = false := beq_eq_false_iff_ne.mpr hdt
        simp [oneTimeMonthPred, todayOneTimePred, hd, hb]
  have hRI : (monthRecurringInstances db uid s t).filter
      (fun i => i.instanceDate == some today) =
      (db.events.filter (recurringPred uid)).filterMap
        (fun e => if matchesRecurrence e today then
          some (⟨e, some today⟩ : Instance) else none) := by
    rw [monthRecurringInstances, List.filter_flatMap]
    rw [show (db.events.filter (recurringPred uid)).filterMap
        (fun e => if matchesRecurrence e today then
          some (⟨e, some today⟩ : Instance) else none) =
        (db.events.filter (recurringPred uid)).flatMap
        (fun e => ((if matchesRecurrence e today then
          some (⟨e, some today⟩ : Instance) else none)).toList) from
      (flatMap_option_toList _ _).symm]
    apply flatMap_congr
    intro e he
    rw [List.filter_filterMap]
    have harm : ∀ d ∈ daysInRange s t,
        Option.filter (fun i : Instance => i.instanceDate == some today)
          (if matchesRecurrence e d then
            some (⟨e, some d⟩ : Instance) else none) =
        (if d = today then
          (if matchesRecurrence e today then
            some (⟨e, some today⟩ : Instance) else none) else none) := by
      intro d hd
      by_cases hdt : d = today
      · subst hdt
        cases hm : matchesRecurrence e d with
        | false => simp [hm]
        | true => simp [hm, Option.filter]
      · cases hm : matchesRecurrence e d with
        | false => simp [hm, hdt]
        | true => simp [hm, Option.filter, hdt]
    rw [List.filterMap_congr harm]
    exact filterMap_single (daysInRange_nodup s t)
      (mem_daysInRange.mpr ⟨hs, ht⟩) _
  rw [hOT, hRI, List.map_append]
  rw [getTodayStudyEvents, todayEvents, List.map_append]
  congr 1
  · rw [List.map_map]
    apply List.map_congr_left
    intro e he
    rcases List.mem_filter.mp he with ⟨hemem, hep⟩
    have hedate : e.date = some today := by
      rw [todayOneTimePred] at hep
      simp only [Bool.and_eq_true] at hep
      rcases hep with ⟨-, hmatch⟩
      cases hd : e.date with
      | none => rw [hd] at hmatch; simp at hmatch
      | some d0 =>
        rw [hd] at hmatch
        simp only [beq_iff_eq] at hmatch
        rw [hmatch]
    have hone : oneTimeMonthPred uid s t e = true := by
      rw [todayOneTimePred] at hep
      simp only [Bool.and_eq_true] at hep
      rw [oneTimeMonthPred, hedate]
      simp [hep.1.1, hep.1.2, hs, ht]
    have hinstmem : (⟨e, e.date⟩ : Instance) ∈ monthInstances db uid s t :=
      (sortByKey_perm instKey _).mem_iff.mpr
        (List.mem_append_left _ (mem_monthOneTimeInstances.mpr
          ⟨e, hemem, hone, rfl⟩))
    have hmonth : e._id ∈ (monthInstances db uid s t).map
        (fun i => i.ev._id) := by
      have := List.mem_map_of_mem (fun i : Instance => i.ev._id) hinstmem
      simpa using this
    have htoday : e._id ∈ (todayEvents db uid today).map
        (fun e => e._id) := by
      apply List.mem_map_of_mem
      rw [todayEvents]
      exact List.mem_append_left _ (List.mem_filter.mpr ⟨hemem, hep⟩)
    show Occurrence.mk { e with date := e.date } none
        (match e.date with
          | some d => (lookupLog (monthLogs db uid s t) e._id d).getD false
          | none => false) =
      Occurrence.mk e none (todayCompleted (todayLogs db uid today) e._id)
    congr 1
    rw [hedate]
    exact completed_agree db uid s t today hs ht e._id hmonth htoday
  · rw [List.map_filterMap, List.map_filterMap]
    apply List.filterMap_congr
    intro e he
    rcases List.mem_filter.mp he with ⟨hemem, hrp⟩
    cases hm : matchesRecurrence e today with
    | false => simp [hm]
    | true =>
      simp only [hm, if_pos]
      have hinstmem : (⟨e, some today⟩ : Instance) ∈
          monthInstances db uid s t :=
        (sortByKey_perm instKey _).mem_iff.mpr
          (List.mem_append_right _ (mem_monthRecurringInstances.mpr
            ⟨e, hemem, hrp, today, mem_daysInRange.mpr ⟨hs, ht⟩, hm, rfl⟩))
      have hmonth : e._id ∈ (monthInstances db uid s t).map
          (fun i => i.ev._id) := by
        have := List.mem_map_of_mem (fun i : Instance => i.ev._id) hinstmem
        simpa using this
      have htoday : e._id ∈ (todayEvents db uid today).map
          (fun e => e._id) := by
        have hmem2 : ({ e with date := some today } : StudyEvent) ∈
            todayEvents db uid today := by
          rw [todayEvents]
          apply List.mem_append_right
          apply List.mem_filterMap.mpr
          exact ⟨e, List.mem_filter.mpr ⟨hemem, hrp⟩, by rw [if_pos hm]⟩
        have := List.mem_map_of_mem (fun e : StudyEvent => e._id) hmem2
        simpa using this
      show some (Occurrence.mk { e with date := some today } none
          ((lookupLog (monthLogs db uid s t) e._id today).getD false)) =
        some (Occurrence.mk { e with date := some today } none
          (todayCompleted (todayLogs db uid today) e._id))
      rw [completed_agree db uid s t today hs ht e._id hmonth htoday]

/-! ### C5: the today view against the month materializer -/

/-- Counterexample to C5 as stated: with one daily event and today =
2024-03-15 (day 19797), the month materializer filtered to today is NOT
identical to the today listing — the month occurrence carries an
`instanceDate` field (`some 19797`) that the today listing's objects do not
have; all other fields and the completion flags agree. -/
theorem getToday_vs_month_counterexample :
    (materializeMonth dbDaily 2 2024 3).filter
        (fun o => o.ev.date == some 19797) ≠
      getTodayStudyEvents dbDaily 2 19797 ∧
    ((materializeMonth dbDaily 2 2024 3).filter
        (fun o => o.ev.date == some 19797)).map (fun o => o.instanceDate) =
      [some 19797] ∧
    (getTodayStudyEvents dbDaily 2 19797).map (fun o => o.instanceDate) =
      [none] :=
  ⟨by decide, by decide, by decide⟩

/-- C5 (amended): for every owner and store state, the today listing equals
the month materializer of any month range containing today, filtered to the
occurrences dated today, after dropping the month view's extra
`instanceDate` annotation — occurrences, definition fields and completion
flags all agree. -/
theorem getToday_refines_month (db : DB) (uid : Nat) (y m today : Int)
    (hs : jsMakeDate y (m - 1) 1 ≤ today) (ht : today ≤ jsMakeDate y m 0) :
    ((materializeMonth db uid y m).filter
        (fun o => o.ev.date == some today)).map
      (fun o => { o with instanceDate := none }) =
    getTodayStudyEvents db uid today :=
  filter_today_core db uid (jsMakeDate y (m - 1) 1) (jsMakeDate y m 0)
    today hs ht

/-- Witness for `getToday_refines_month`: the daily-event store, March 2024,
today = 2024-03-15. -/
theorem getToday_refines_month_witness :
    ((materializeMonth dbDaily 2 2024 3).filter
        (fun o => o.ev.date == some 19797)).map
      (fun o => { o with instanceDate := none }) =
    getTodayStudyEvents dbDaily 2 19797 :=
  getToday_refines_month dbDaily 2 2024 3 19797 (by decide) (by decide)
